import Mathlib

/-!
Verification of the core of `oniongen-go` (`main.go`): a Tor v3 vanity
onion-address miner.  Pure functions (`encodePublicKey`, `expandSecretKey`,
the base32 encoding, SHA3-256 and SHA-512) are embedded as executable Lean
functions over byte lists (`List Nat`, each element `< 256`); the stateful
parts (`generateBatch`'s match loop, `save`'s filesystem writes, the shared
atomic counters and the WaitGroup-based shutdown protocol of `main`) are
embedded as event traces and step relations.
-/

namespace Oniongen

/-! ## 64-bit word arithmetic on `Nat` -/

/-- `2 ^ 64`, the modulus for 64-bit words. -/
def word64 : Nat := 18446744073709551616

/-- `2 ^ 64 - 1`, the all-ones 64-bit mask (used for bitwise complement). -/
def mask64 : Nat := 18446744073709551615

/-- Rotate a 64-bit word left by `n` bits (`0 ≤ n ≤ 63`). -/
def rotl64 (x n : Nat) : Nat := ((x <<< n) % word64) ||| (x >>> (64 - n))

/-- Rotate a 64-bit word right by `n` bits (`1 ≤ n ≤ 63`). -/
def rotr64 (x n : Nat) : Nat := (x >>> n) ||| ((x <<< (64 - n)) % word64)

/-! ## SHA3-256 (Keccak), as used by `golang.org/x/crypto/sha3.Sum256`

The sponge state is a list of 25 lanes of 64 bits; lane `(x, y)` is at index
`x + 5 * y`.  The rate for SHA3-256 is 136 bytes; lanes are filled from bytes
in little-endian order; the padding is the FIPS 202 `06 … 80` domain padding. -/

/-- The 24 Keccak-f[1600] round constants. -/
def keccakRC : List Nat := [
  1, 32898, 9223372036854808714, 9223372039002292224,
  32907, 2147483649, 9223372039002292353, 9223372036854808585,
  138, 136, 2147516425, 2147483658,
  2147516555, 9223372036854775947, 9223372036854808713, 9223372036854808579,
  9223372036854808578, 9223372036854775936, 32778, 9223372039002259466,
  9223372039002292353, 9223372036854808704, 2147483649, 9223372039002292232]

/-- The Keccak rho rotation offsets, indexed by lane index `x + 5 * y`. -/
def rhoOffsets : List Nat :=
  [0, 1, 62, 28, 27, 36, 44, 6, 55, 20, 3, 10, 43] ++
    [25, 39, 41, 45, 15, 21, 8, 18, 2, 61, 56, 14]

/-- Keccak theta step. -/
def theta (A : List Nat) : List Nat :=
  let C := (List.range 5).map (fun x =>
    A.getD x 0 ^^^ A.getD (x + 5) 0 ^^^ A.getD (x + 10) 0 ^^^
      A.getD (x + 15) 0 ^^^ A.getD (x + 20) 0)
  let D := (List.range 5).map (fun x =>
    C.getD ((x + 4) % 5) 0 ^^^ rotl64 (C.getD ((x + 1) % 5) 0) 1)
  (List.range 25).map (fun i => A.getD i 0 ^^^ D.getD (i % 5) 0)

/-- Keccak rho and pi steps combined: the lane at `(X, Y)` of the result is the
lane at `(X + 3Y mod 5, X)` of the input, rotated by its rho offset. -/
def rhoPi (A : List Nat) : List Nat :=
  (List.range 25).map (fun i =>
    let X := i % 5
    let Y := i / 5
    let src := (X + 3 * Y) % 5 + 5 * X
    rotl64 (A.getD src 0) (rhoOffsets.getD src 0))

/-- Keccak chi step. -/
def chi (A : List Nat) : List Nat :=
  (List.range 25).map (fun i =>
    let x := i % 5
    let y := i / 5
    A.getD i 0 ^^^
      ((A.getD ((x + 1) % 5 + 5 * y) 0 ^^^ mask64) &&& A.getD ((x + 2) % 5 + 5 * y) 0))

/-- Keccak iota step: xor the round constant into lane 0. -/
def iotaStep (A : List Nat) (rc : Nat) : List Nat := A.set 0 (A.getD 0 0 ^^^ rc)

/-- One Keccak-f round. -/
def keccakRound (A : List Nat) (rc : Nat) : List Nat := iotaStep (chi (rhoPi (theta A))) rc

/-- The full Keccak-f[1600] permutation (24 rounds). -/
def keccakF (A : List Nat) : List Nat := keccakRC.foldl keccakRound A

/-- Interpret a byte list as a little-endian natural number (a Keccak lane). -/
def laneOfBytes (bs : List Nat) : Nat := bs.foldr (fun b acc => acc * 256 + b) 0

/-- Absorb one 136-byte rate block into the sponge state. -/
def absorbBlock (A block : List Nat) : List Nat :=
  (List.range 25).map (fun i =>
    A.getD i 0 ^^^ (if i < 17 then laneOfBytes ((block.drop (8 * i)).take 8) else 0))

/-- Absorb `n` rate blocks from `bytes`, applying Keccak-f after each. -/
def absorbBlocks : Nat → List Nat → List Nat → List Nat
  | 0, A, _ => A
  | n + 1, A, bytes => absorbBlocks n (keccakF (absorbBlock A (bytes.take 136))) (bytes.drop 136)

/-- FIPS 202 SHA3 padding (`06 00 … 00 80`, or the single byte `86`) to a
multiple of the 136-byte rate. -/
def sha3pad (msg : List Nat) : List Nat :=
  let q := 136 - msg.length % 136
  if q = 1 then msg ++ [134]
  else msg ++ [6] ++ List.replicate (q - 2) 0 ++ [128]

/-- SHA3-256 of a byte list: 32 output bytes, squeezed little-endian from the
first four lanes. -/
def sha3_256 (msg : List Nat) : List Nat :=
  let padded := sha3pad msg
  let A := absorbBlocks (padded.length / 136) (List.replicate 25 0) padded
  (List.range 32).map (fun i => (A.getD (i / 8) 0 >>> (8 * (i % 8))) % 256)

/-! ## SHA-512, as used by `crypto/sha512.Sum512`

Standard FIPS 180-4 SHA-512: big-endian 64-bit words, 80 rounds, output is
the eight chaining words serialized big-endian as 64 bytes. -/

/-- The 80 SHA-512 round constants. -/
def sha512K : List Nat := [
  4794697086780616226, 8158064640168781261, 13096744586834688815, 16840607885511220156,
  4131703408338449720, 6480981068601479193, 10538285296894168987, 12329834152419229976,
  15566598209576043074, 1334009975649890238, 2608012711638119052, 6128411473006802146,
  8268148722764581231, 9286055187155687089, 11230858885718282805, 13951009754708518548,
  16472876342353939154, 17275323862435702243, 1135362057144423861, 2597628984639134821,
  3308224258029322869, 5365058923640841347, 6679025012923562964, 8573033837759648693,
  10970295158949994411, 12119686244451234320, 12683024718118986047, 13788192230050041572,
  14330467153632333762, 15395433587784984357, 489312712824947311, 1452737877330783856,
  2861767655752347644, 3322285676063803686, 5560940570517711597, 5996557281743188959,
  7280758554555802590, 8532644243296465576, 9350256976987008742, 10552545826968843579,
  11727347734174303076, 12113106623233404929, 14000437183269869457, 14369950271660146224,
  15101387698204529176, 15463397548674623760, 17586052441742319658, 1182934255886127544,
  1847814050463011016, 2177327727835720531, 2830643537854262169, 3796741975233480872,
  4115178125766777443, 5681478168544905931, 6601373596472566643, 7507060721942968483,
  8399075790359081724, 8693463985226723168, 9568029438360202098, 10144078919501101548,
  10430055236837252648, 11840083180663258601, 13761210420658862357, 14299343276471374635,
  14566680578165727644, 15097957966210449927, 16922976911328602910, 17689382322260857208,
  500013540394364858, 748580250866718886, 1242879168328830382, 1977374033974150939,
  2944078676154940804, 3659926193048069267, 4368137639120453308, 4836135668995329356,
  5532061633213252278, 6448918945643986474, 6902733635092675308, 7801388544844847127]

/-- The SHA-512 initial hash value (eight 64-bit words). -/
def sha512H0 : List Nat := [
  7640891576956012808, 13503953896175478587, 4354685564936845355, 11912009170470909681,
  5840696475078001361, 11170449401992604703, 2270897969802886507, 6620516959819538809]

/-- SHA-512 big sigma 0. -/
def bigSigma0 (x : Nat) : Nat := rotr64 x 28 ^^^ rotr64 x 34 ^^^ rotr64 x 39

/-- SHA-512 big sigma 1. -/
def bigSigma1 (x : Nat) : Nat := rotr64 x 14 ^^^ rotr64 x 18 ^^^ rotr64 x 41

/-- SHA-512 small sigma 0. -/
def smallSigma0 (x : Nat) : Nat := rotr64 x 1 ^^^ rotr64 x 8 ^^^ (x >>> 7)

/-- SHA-512 small sigma 1. -/
def smallSigma1 (x : Nat) : Nat := rotr64 x 19 ^^^ rotr64 x 61 ^^^ (x >>> 6)

/-- SHA-2 choice function. -/
def chFun (x y z : Nat) : Nat := (x &&& y) ^^^ ((x ^^^ mask64) &&& z)

/-- SHA-2 majority function. -/
def majFun (x y z : Nat) : Nat := (x &&& y) ^^^ (x &&& z) ^^^ (y &&& z)

/-- Interpret a byte list as a big-endian natural number (a SHA-512 word). -/
def beWord (bs : List Nat) : Nat := bs.foldl (fun acc b => acc * 256 + b) 0

/-- Extend the 16-word message schedule by `n` further words. -/
def buildW : Nat → List Nat → List Nat
  | 0, W => W
  | n + 1, W =>
    buildW n (W ++ [(smallSigma1 (W.getD (W.length - 2) 0) + W.getD (W.length - 7) 0 +
      smallSigma0 (W.getD (W.length - 15) 0) + W.getD (W.length - 16) 0) % word64])

/-- One SHA-512 compression round on the register list `[a, b, c, d, e, f, g, h]`. -/
def sha512Round (k w : Nat) (r : List Nat) : List Nat :=
  let a := r.getD 0 0
  let b := r.getD 1 0
  let c := r.getD 2 0
  let d := r.getD 3 0
  let e := r.getD 4 0
  let f := r.getD 5 0
  let g := r.getD 6 0
  let h := r.getD 7 0
  let T1 := (h + bigSigma1 e + chFun e f g + k + w) % word64
  let T2 := (bigSigma0 a + majFun a b c) % word64
  [(T1 + T2) % word64, a, b, c, (d + T1) % word64, e, f, g]

/-- Compress one 128-byte block into the chaining state. -/
def sha512Block (H block : List Nat) : List Nat :=
  let W0 := (List.range 16).map (fun i => beWord ((block.drop (8 * i)).take 8))
  let W := buildW 64 W0
  let r := (List.range 80).foldl (fun r t => sha512Round (sha512K.getD t 0) (W.getD t 0) r) H
  (List.range 8).map (fun i => (H.getD i 0 + r.getD i 0) % word64)

/-- Compress `n` 128-byte blocks from `bytes`. -/
def sha512Blocks : Nat → List Nat → List Nat → List Nat
  | 0, H, _ => H
  | n + 1, H, bytes => sha512Blocks n (sha512Block H (bytes.take 128)) (bytes.drop 128)

/-- SHA-512 padding: `80`, zeros, then the bit length as 16 big-endian bytes,
to a multiple of 128 bytes. -/
def sha512pad (msg : List Nat) : List Nat :=
  let lenBits := 8 * msg.length
  let z := (128 - (msg.length + 17) % 128) % 128
  msg ++ [128] ++ List.replicate z 0 ++
    (List.range 16).map (fun i => (lenBits >>> (8 * (15 - i))) % 256)

/-- SHA-512 of a byte list: 64 output bytes, big-endian from the eight words. -/
def sha512 (msg : List Nat) : List Nat :=
  let padded := sha512pad msg
  let H := sha512Blocks (padded.length / 128) sha512H0 padded
  (List.range 64).map (fun i => (H.getD (i / 8) 0 >>> (8 * (7 - i % 8))) % 256)

/-! ## RFC 4648 base32, as used by `encoding/base32.StdEncoding.EncodeToString`

A 5-byte group yields 8 characters; a final group of 1/2/3/4 bytes yields
2/4/5/7 characters followed by `=` padding to 8 characters. -/

/-- The RFC 4648 standard base32 alphabet. -/
def b32alphabet : List Char := "ABCDEFGHIJKLMNOPQRSTUVWXYZ234567".toList

/-- The `=` padding character. -/
def padChar : Char := Char.ofNat 61

/-- Character for a 5-bit value `n < 32`. -/
def b32chr (n : Nat) : Char := b32alphabet.getD n padChar

/-- The eight 5-bit values of a full 5-byte group `b0 b1 b2 b3 b4`. -/
def encGroup (b0 b1 b2 b3 b4 : Nat) : List Nat :=
  [b0 / 8, b0 % 8 * 4 + b1 / 64, b1 / 2 % 32, b1 % 2 * 16 + b2 / 16,
   b2 % 16 * 2 + b3 / 128, b3 / 4 % 32, b3 % 4 * 8 + b4 / 32, b4 % 32]

/-- RFC 4648 base32 encoding (with `=` padding) of a byte list. -/
def base32Encode : List Nat → List Char
  | b0 :: b1 :: b2 :: b3 :: b4 :: rest =>
    (encGroup b0 b1 b2 b3 b4).map b32chr ++ base32Encode rest
  | [b0, b1, b2, b3] =>
    ([b0 / 8, b0 % 8 * 4 + b1 / 64, b1 / 2 % 32, b1 % 2 * 16 + b2 / 16,
      b2 % 16 * 2 + b3 / 128, b3 / 4 % 32, b3 % 4 * 8]).map b32chr ++ [padChar]
  | [b0, b1, b2] =>
    ([b0 / 8, b0 % 8 * 4 + b1 / 64, b1 / 2 % 32, b1 % 2 * 16 + b2 / 16,
      b2 % 16 * 2]).map b32chr ++ List.replicate 3 padChar
  | [b0, b1] =>
    ([b0 / 8, b0 % 8 * 4 + b1 / 64, b1 / 2 % 32, b1 % 2 * 16]).map b32chr ++
      List.replicate 4 padChar
  | [b0] => ([b0 / 8, b0 % 8 * 4]).map b32chr ++ List.replicate 6 padChar
  | [] => []

/-- ASCII lowercasing of one character, as `strings.ToLower` acts on ASCII. -/
def lowerChar (c : Char) : Char :=
  if 65 ≤ c.toNat ∧ c.toNat ≤ 90 then Char.ofNat (c.toNat + 32) else c

/-- ASCII lowercasing of a character list. -/
def toLowerAscii (cs : List Char) : List Char := cs.map lowerChar

/-! ## The pure core functions of `main.go` -/

/-- The bytes of the ASCII literal `".onion checksum"`. -/
def checksumSalt : List Nat := ".onion checksum".toList.map Char.toNat

/-- `encodePublicKey` from `main.go`: SHA3-256 the 48-byte buffer
`".onion checksum" ++ publicKey ++ [0x03]`, append the first two checksum
bytes and the version byte `0x03` to the public key, base32-encode and
lowercase. -/
def encodePublicKey (publicKey : List Nat) : String :=
  let checksum := sha3_256 (checksumSalt ++ publicKey ++ [3])
  String.mk (toLowerAscii (base32Encode (publicKey ++ checksum.take 2 ++ [3])))

/-- `expandSecretKey` from `main.go`: SHA-512 of the first 32 bytes of the
private key, then clamp with `h[0] &= 248`, `h[31] &= 127`, `h[31] |= 64`. -/
def expandSecretKey (secretKey : List Nat) : List Nat :=
  let hash := sha512 (secretKey.take 32)
  let h0 := hash.set 0 (hash.getD 0 0 &&& 248)
  let h1 := h0.set 31 (h0.getD 31 0 &&& 127)
  h1.set 31 (h1.getD 31 0 ||| 64)

/-- The 35-byte address buffer built by `encodePublicKey`: public key, first
two checksum bytes, version byte `0x03`. -/
def addressBytes (pk : List Nat) : List Nat :=
  pk ++ (sha3_256 (checksumSalt ++ pk ++ [3])).take 2 ++ [3]

/-- The lowercase RFC 4648 base32 alphabet. -/
def b32lower : List Char := "abcdefghijklmnopqrstuvwxyz234567".toList

/-- Interpret a byte list as a big-endian natural number. -/
def bytesNum (bs : List Nat) : Nat := bs.foldl (fun acc b => acc * 256 + b) 0

/-- Spec-level base32 of a byte list whose length is a multiple of 5
(following the spec's words): concatenate the bytes into one bit string and
read it as consecutive 5-bit chunks, most significant first. -/
def base32BitChunks (bs : List Nat) : List Nat :=
  let n := 8 * bs.length / 5
  (List.range n).map (fun i => bytesNum bs / 32 ^ (n - 1 - i) % 32)

/-- The five bytes recovered from a full group of eight 5-bit values
(the RFC 4648 base32 decoding of one group). -/
def decGroup (c0 c1 c2 c3 c4 c5 c6 c7 : Nat) : List Nat :=
  [c0 * 8 + c1 / 4, c1 % 4 * 64 + c2 * 2 + c3 / 16, c3 % 16 * 16 + c4 / 2,
   c4 % 2 * 128 + c5 * 4 + c6 / 8, c6 % 8 * 32 + c7]

/-- Base32 decoding of a list of 5-bit values, full groups only. -/
def base32DecodeIdx : List Nat -> List Nat
  | c0 :: c1 :: c2 :: c3 :: c4 :: c5 :: c6 :: c7 :: rest =>
    decGroup c0 c1 c2 c3 c4 c5 c6 c7 ++ base32DecodeIdx rest
  | _ => []

/-- Index of a character in the lowercase base32 alphabet. -/
def b32idx (c : Char) : Nat := b32lower.indexOf c

/-- Base32 decoding of a lowercase address string into bytes (the inverse
direction named by the spec's round-trip invariant). -/
def base32Decode (s : String) : List Nat := base32DecodeIdx (s.data.map b32idx)

/-! ## Basic lemmas about the hash outputs and base32 -/

/-- SHA3-256 always produces 32 bytes. -/
theorem sha3_256_length (m : List Nat) : (sha3_256 m).length = 32 := by
  simp [sha3_256]

/-- Every SHA3-256 output byte is below 256. -/
theorem sha3_256_lt (m : List Nat) : ∀ b ∈ sha3_256 m, b < 256 := by
  intro b hb
  simp only [sha3_256, List.mem_map, List.mem_range] at hb
  obtain ⟨i, _, h⟩ := hb
  omega

/-- SHA-512 always produces 64 bytes. -/
theorem sha512_length (m : List Nat) : (sha512 m).length = 64 := by
  simp [sha512]

/-- Every SHA-512 output byte is below 256. -/
theorem sha512_lt (m : List Nat) : ∀ b ∈ sha512 m, b < 256 := by
  intro b hb
  simp only [sha512, List.mem_map, List.mem_range] at hb
  obtain ⟨i, _, h⟩ := hb
  omega

/-- `getD` of a list of bytes below 256 is below 256 (default 0). -/
theorem getD_lt_of_forall {l : List Nat} (hb : ∀ b ∈ l, b < 256) (i : Nat) :
    l.getD i 0 < 256 := by
  by_cases h : i < l.length
  · rw [List.getD_eq_getElem?_getD, List.getElem?_eq_getElem h]
    exact hb _ (List.getElem_mem h)
  · rw [List.getD_eq_getElem?_getD, List.getElem?_eq_none (by omega)]
    norm_num

/-- The eight 5-bit values of a full base32 group are below 32. -/
theorem encGroup_lt {b0 b1 b2 b3 b4 : Nat} (h0 : b0 < 256) (h1 : b1 < 256)
    (h2 : b2 < 256) (h3 : b3 < 256) (h4 : b4 < 256) :
    ∀ c ∈ encGroup b0 b1 b2 b3 b4, c < 32 := by
  intro c hc
  simp only [encGroup, List.mem_cons, List.not_mem_nil, or_false] at hc
  rcases hc with rfl | rfl | rfl | rfl | rfl | rfl | rfl | rfl <;> omega

/-- Characters of 5-bit values lie in the base32 alphabet. -/
theorem b32chr_mem : ∀ n < 32, b32chr n ∈ b32alphabet := by decide

/-- Lowercasing maps the base32 alphabet into the lowercase alphabet. -/
theorem lowerChar_mem : ∀ c ∈ b32alphabet, lowerChar c ∈ b32lower := by decide

/-- Decoding a lowercased base32 character recovers its 5-bit value. -/
theorem b32idx_lower_chr : ∀ n < 32, b32idx (lowerChar (b32chr n)) = n := by decide

/-- For byte lists whose length is a multiple of 5, `base32Encode` yields
`8 / 5` as many characters, all in the base32 alphabet (no padding). -/
theorem base32Encode_props : ∀ (k : Nat) (bs : List Nat), bs.length = 5 * k →
    (∀ b ∈ bs, b < 256) →
    (base32Encode bs).length = 8 * k ∧ ∀ c ∈ base32Encode bs, c ∈ b32alphabet := by
  intro k
  induction k with
  | zero =>
    intro bs h _
    rw [Nat.mul_zero, List.length_eq_zero] at h
    subst h
    simp [base32Encode]
  | succ k ih =>
    intro bs h hb
    match bs with
    | [] => simp at h
    | [b0] => simp at h; omega
    | [b0, b1] => simp at h; omega
    | [b0, b1, b2] => simp at h; omega
    | [b0, b1, b2, b3] => simp at h; omega
    | b0 :: b1 :: b2 :: b3 :: b4 :: rest =>
      simp only [List.length_cons] at h
      have hr : rest.length = 5 * k := by omega
      have hb5 : b0 < 256 ∧ b1 < 256 ∧ b2 < 256 ∧ b3 < 256 ∧ b4 < 256 := by
        refine ⟨hb b0 ?_, hb b1 ?_, hb b2 ?_, hb b3 ?_, hb b4 ?_⟩ <;> simp
      have hbr : ∀ b ∈ rest, b < 256 := fun b hbm => hb b (by simp [hbm])
      obtain ⟨ihl, ihm⟩ := ih rest hr hbr
      have he : base32Encode (b0 :: b1 :: b2 :: b3 :: b4 :: rest) =
          (encGroup b0 b1 b2 b3 b4).map b32chr ++ base32Encode rest := rfl
      rw [he]
      constructor
      · simp only [List.length_append, List.length_map, ihl, encGroup,
          List.length_cons, List.length_nil]
        omega
      · intro c hc
        rcases List.mem_append.1 hc with hc | hc
        · obtain ⟨n, hn, h⟩ := List.mem_map.1 hc
          subst h
          exact b32chr_mem n
            (encGroup_lt hb5.1 hb5.2.1 hb5.2.2.1 hb5.2.2.2.1 hb5.2.2.2.2 n hn)
        · exact ihm c hc

/-- `foldl` form of `bytesNum` with a seed. -/
theorem bytesNum_foldl (ys : List Nat) : ∀ a : Nat,
    ys.foldl (fun acc b => acc * 256 + b) a = a * 256 ^ ys.length + bytesNum ys := by
  induction ys with
  | nil => intro a; simp [bytesNum]
  | cons y t ih =>
    intro a
    simp only [List.foldl_cons, bytesNum, List.length_cons]
    rw [ih (a * 256 + y), ih (0 * 256 + y)]
    ring

/-- `bytesNum` of an append. -/
theorem bytesNum_append (xs ys : List Nat) :
    bytesNum (xs ++ ys) = bytesNum xs * 256 ^ ys.length + bytesNum ys := by
  rw [bytesNum, List.foldl_append, bytesNum_foldl]
  rfl

/-- A list of bytes below 256 denotes a number below `256 ^ length`. -/
theorem bytesNum_lt (ys : List Nat) (hb : ∀ b ∈ ys, b < 256) :
    bytesNum ys < 256 ^ ys.length := by
  induction ys with
  | nil => simp [bytesNum]
  | cons y t ih =>
    have hy : y < 256 := hb y (by simp)
    have ht : ∀ b ∈ t, b < 256 := fun b hm => hb b (by simp [hm])
    have h1 : bytesNum (y :: t) = y * 256 ^ t.length + bytesNum t := by
      rw [show y :: t = [y] ++ t from rfl, bytesNum_append]
      simp [bytesNum]
    rw [h1, List.length_cons]
    have := ih ht
    have h2 : (y + 1) * 256 ^ t.length ≤ 256 ^ (t.length + 1) := by
      rw [pow_succ, Nat.mul_comm (y + 1)]
      exact Nat.mul_le_mul (Nat.le_refl _) (by omega)
    nlinarith

/-- `256 ^ (5 k) = 32 ^ (8 k)`: five bytes carry forty bits, eight chunks. -/
theorem pow256_eq_pow32 (k : Nat) : (256 : Nat) ^ (5 * k) = 32 ^ (8 * k) := by
  rw [show (256 : Nat) = 2 ^ 8 by norm_num, show (32 : Nat) = 2 ^ 5 by norm_num,
    ← pow_mul, ← pow_mul]
  ring_nf

/-- Unfolding of `base32BitChunks` at a computed chunk count. -/
theorem base32BitChunks_eq (bs : List Nat) (n : Nat) (h : 8 * bs.length / 5 = n) :
    base32BitChunks bs =
      (List.range n).map (fun i => bytesNum bs / 32 ^ (n - 1 - i) % 32) := by
  subst h
  rfl

/-- The eight 5-bit values of a group are the 5-bit chunks of its 40-bit value. -/
theorem encGroup_eq_chunks (b0 b1 b2 b3 b4 : Nat) (h0 : b0 < 256) (h1 : b1 < 256)
    (h2 : b2 < 256) (h3 : b3 < 256) (h4 : b4 < 256) :
    encGroup b0 b1 b2 b3 b4 = (List.range 8).map
      (fun i => bytesNum [b0, b1, b2, b3, b4] / 32 ^ (7 - i) % 32) := by
  have hV : bytesNum [b0, b1, b2, b3, b4] =
      (((b0 * 256 + b1) * 256 + b2) * 256 + b3) * 256 + b4 := by
    simp [bytesNum]
  rw [show List.range 8 = [0, 1, 2, 3, 4, 5, 6, 7] from rfl]
  simp only [List.map_cons, List.map_nil, encGroup, hV, List.cons.injEq, and_true]
  norm_num
  omega

/-- One five-byte group contributes the first eight 5-bit chunks. -/
theorem base32BitChunks_group (b0 b1 b2 b3 b4 : Nat) (rest : List Nat) (k : Nat)
    (hr : rest.length = 5 * k) (h0 : b0 < 256) (h1 : b1 < 256) (h2 : b2 < 256)
    (h3 : b3 < 256) (h4 : b4 < 256) (hb : ∀ b ∈ rest, b < 256) :
    base32BitChunks (b0 :: b1 :: b2 :: b3 :: b4 :: rest) =
      encGroup b0 b1 b2 b3 b4 ++ base32BitChunks rest := by
  have hR : bytesNum rest < 32 ^ (8 * k) := by
    have := bytesNum_lt rest hb
    rwa [hr, pow256_eq_pow32] at this
  have hNsplit : bytesNum (b0 :: b1 :: b2 :: b3 :: b4 :: rest) =
      bytesNum [b0, b1, b2, b3, b4] * 32 ^ (8 * k) + bytesNum rest := by
    rw [show b0 :: b1 :: b2 :: b3 :: b4 :: rest = [b0, b1, b2, b3, b4] ++ rest from rfl,
      bytesNum_append, hr, pow256_eq_pow32]
  have key1 : ∀ m : Nat, bytesNum (b0 :: b1 :: b2 :: b3 :: b4 :: rest) / 32 ^ (8 * k + m) =
      bytesNum [b0, b1, b2, b3, b4] / 32 ^ m := by
    intro m
    rw [pow_add, ← Nat.div_div_eq_div_mul]
    congr 1
    rw [hNsplit, Nat.add_comm, Nat.add_mul_div_right _ _ (by positivity),
      Nat.div_eq_of_lt hR]
    omega
  have key2 : ∀ j : Nat, j < 8 * k →
      bytesNum (b0 :: b1 :: b2 :: b3 :: b4 :: rest) / 32 ^ (8 * k - 1 - j) % 32 =
        bytesNum rest / 32 ^ (8 * k - 1 - j) % 32 := by
    intro j hj
    obtain ⟨s, hs1, hs2⟩ : ∃ s, 8 * k - 1 - j = s ∧ 8 * k = s + (j + 1) :=
      ⟨_, rfl, by omega⟩
    rw [hNsplit, hs1, hs2, pow_add]
    rw [show bytesNum [b0, b1, b2, b3, b4] * (32 ^ s * 32 ^ (j + 1)) + bytesNum rest =
      bytesNum rest + bytesNum [b0, b1, b2, b3, b4] * 32 ^ (j + 1) * 32 ^ s by ring]
    rw [Nat.add_mul_div_right _ _ (by positivity)]
    rw [pow_succ]
    rw [show bytesNum rest / 32 ^ s +
        bytesNum [b0, b1, b2, b3, b4] * (32 ^ j * 32) =
      bytesNum rest / 32 ^ s + bytesNum [b0, b1, b2, b3, b4] * 32 ^ j * 32 by ring]
    exact Nat.add_mul_mod_self_right _ _ _
  rw [base32BitChunks_eq (b0 :: b1 :: b2 :: b3 :: b4 :: rest) (8 + 8 * k)
    (by simp only [List.length_cons, hr]; omega)]
  rw [base32BitChunks_eq rest (8 * k) (by rw [hr]; omega)]
  rw [List.range_add, List.map_append, List.map_map]
  congr 1
  · rw [encGroup_eq_chunks b0 b1 b2 b3 b4 h0 h1 h2 h3 h4]
    apply List.map_congr_left
    intro i hi
    have hi8 : i < 8 := List.mem_range.1 hi
    rw [show 8 + 8 * k - 1 - i = 8 * k + (7 - i) by omega, key1 (7 - i)]
  · apply List.map_congr_left
    intro j hj
    have hjk : j < 8 * k := List.mem_range.1 hj
    simp only [Function.comp_apply]
    rw [show 8 + 8 * k - 1 - (8 + j) = 8 * k - 1 - j by omega, key2 j hjk]

/-- For byte lists whose length is a multiple of 5, the group-based encoder of
the source equals the spec-level bit-string chunking. -/
theorem base32Encode_eq_bitChunks : ∀ (k : Nat) (bs : List Nat), bs.length = 5 * k →
    (∀ b ∈ bs, b < 256) → base32Encode bs = (base32BitChunks bs).map b32chr := by
  intro k
  induction k with
  | zero =>
    intro bs h _
    rw [Nat.mul_zero, List.length_eq_zero] at h
    subst h
    rfl
  | succ k ih =>
    intro bs h hb
    match bs with
    | [] => simp at h
    | [b0] => simp at h; omega
    | [b0, b1] => simp at h; omega
    | [b0, b1, b2] => simp at h; omega
    | [b0, b1, b2, b3] => simp at h; omega
    | b0 :: b1 :: b2 :: b3 :: b4 :: rest =>
      simp only [List.length_cons] at h
      have hr : rest.length = 5 * k := by omega
      have hbr : ∀ b ∈ rest, b < 256 := fun b hbm => hb b (by simp [hbm])
      rw [base32BitChunks_group b0 b1 b2 b3 b4 rest k hr (hb b0 (by simp))
        (hb b1 (by simp)) (hb b2 (by simp)) (hb b3 (by simp)) (hb b4 (by simp)) hbr]
      rw [List.map_append]
      rw [show base32Encode (b0 :: b1 :: b2 :: b3 :: b4 :: rest) =
        (encGroup b0 b1 b2 b3 b4).map b32chr ++ base32Encode rest from rfl]
      rw [ih rest hr hbr]

/-- Decoding a full group of eight 5-bit values recovers the five bytes. -/
theorem decGroup_encGroup (b0 b1 b2 b3 b4 : Nat) (_h0 : b0 < 256) (h1 : b1 < 256)
    (h2 : b2 < 256) (h3 : b3 < 256) (h4 : b4 < 256) :
    decGroup (b0 / 8) (b0 % 8 * 4 + b1 / 64) (b1 / 2 % 32) (b1 % 2 * 16 + b2 / 16)
      (b2 % 16 * 2 + b3 / 128) (b3 / 4 % 32) (b3 % 4 * 8 + b4 / 32) (b4 % 32) =
      [b0, b1, b2, b3, b4] := by
  simp only [decGroup, List.cons.injEq, and_true]
  omega

/-- Round trip: decoding the lowercased base32 encoding of a byte list whose
length is a multiple of 5 returns the byte list. -/
theorem base32_roundtrip : ∀ (k : Nat) (bs : List Nat), bs.length = 5 * k →
    (∀ b ∈ bs, b < 256) →
    base32DecodeIdx (((base32Encode bs).map lowerChar).map b32idx) = bs := by
  intro k
  induction k with
  | zero =>
    intro bs h _
    rw [Nat.mul_zero, List.length_eq_zero] at h
    subst h
    rfl
  | succ k ih =>
    intro bs h hb
    match bs with
    | [] => simp at h
    | [b0] => simp at h; omega
    | [b0, b1] => simp at h; omega
    | [b0, b1, b2] => simp at h; omega
    | [b0, b1, b2, b3] => simp at h; omega
    | b0 :: b1 :: b2 :: b3 :: b4 :: rest =>
      simp only [List.length_cons] at h
      have hr : rest.length = 5 * k := by omega
      have hbr : ∀ b ∈ rest, b < 256 := fun b hbm => hb b (by simp [hbm])
      have h0 := hb b0 (by simp)
      have h1 := hb b1 (by simp)
      have h2 := hb b2 (by simp)
      have h3 := hb b3 (by simp)
      have h4 := hb b4 (by simp)
      rw [show base32Encode (b0 :: b1 :: b2 :: b3 :: b4 :: rest) =
        (encGroup b0 b1 b2 b3 b4).map b32chr ++ base32Encode rest from rfl]
      simp only [encGroup, List.map_cons, List.map_append, List.cons_append,
        List.map_nil, List.nil_append]
      rw [b32idx_lower_chr (b0 / 8) (by omega),
        b32idx_lower_chr (b0 % 8 * 4 + b1 / 64) (by omega),
        b32idx_lower_chr (b1 / 2 % 32) (by omega),
        b32idx_lower_chr (b1 % 2 * 16 + b2 / 16) (by omega),
        b32idx_lower_chr (b2 % 16 * 2 + b3 / 128) (by omega),
        b32idx_lower_chr (b3 / 4 % 32) (by omega),
        b32idx_lower_chr (b3 % 4 * 8 + b4 / 32) (by omega),
        b32idx_lower_chr (b4 % 32) (by omega)]
      rw [show ∀ t : List Nat, base32DecodeIdx (b0 / 8 :: (b0 % 8 * 4 + b1 / 64) ::
          b1 / 2 % 32 :: (b1 % 2 * 16 + b2 / 16) :: (b2 % 16 * 2 + b3 / 128) ::
          b3 / 4 % 32 :: (b3 % 4 * 8 + b4 / 32) :: b4 % 32 :: t) =
        decGroup (b0 / 8) (b0 % 8 * 4 + b1 / 64) (b1 / 2 % 32) (b1 % 2 * 16 + b2 / 16)
          (b2 % 16 * 2 + b3 / 128) (b3 / 4 % 32) (b3 % 4 * 8 + b4 / 32) (b4 % 32) ++
          base32DecodeIdx t from fun t => rfl]
      rw [decGroup_encGroup b0 b1 b2 b3 b4 h0 h1 h2 h3 h4, ih rest hr hbr]
      rfl

/-- `encodePublicKey` is the lowercased base32 encoding of the address buffer. -/
theorem encodePublicKey_eq (pk : List Nat) :
    encodePublicKey pk = String.mk (toLowerAscii (base32Encode (addressBytes pk))) := rfl

/-- The address buffer has 35 bytes. -/
theorem addressBytes_length (pk : List Nat) (hl : pk.length = 32) :
    (addressBytes pk).length = 35 := by
  simp [addressBytes, List.length_append, List.length_take, sha3_256_length, hl]

/-- All bytes of the address buffer are below 256. -/
theorem addressBytes_lt (pk : List Nat) (hb : ∀ b ∈ pk, b < 256) :
    ∀ b ∈ addressBytes pk, b < 256 := by
  intro b hbm
  rcases List.mem_append.1 hbm with hbm | hbm
  · rcases List.mem_append.1 hbm with hbm | hbm
    · exact hb b hbm
    · exact sha3_256_lt _ b (List.take_subset _ _ hbm)
  · simp only [List.mem_singleton] at hbm
    omega

/-- The encoded address always has 56 characters. -/
theorem encodePublicKey_length (pk : List Nat) (hl : pk.length = 32)
    (hb : ∀ b ∈ pk, b < 256) : (encodePublicKey pk).length = 56 := by
  have hprops := base32Encode_props 7 (addressBytes pk)
    (by rw [addressBytes_length pk hl]) (addressBytes_lt pk hb)
  rw [encodePublicKey_eq]
  show (toLowerAscii (base32Encode (addressBytes pk))).length = 56
  rw [toLowerAscii, List.length_map, hprops.1]

/-! ## Claim C1: the address encoder -/

/-- C1: for every 32-byte public key, `encodePublicKey` returns the lowercased
unpadded base32 encoding (RFC 4648 alphabet, read as one 280-bit string) of the
35-byte buffer {public key, first 2 bytes of
SHA3-256(".onion checksum" ++ publicKey ++ 0x03), version byte 0x03}; the
checksum input has 48 bytes, the buffer 35 bytes, and the result is always a
56-character string over the lowercase base32 alphabet. -/
theorem C1_addressEncoder (pk : List Nat) (hl : pk.length = 32)
    (hb : ∀ b ∈ pk, b < 256) :
    encodePublicKey pk = String.mk (toLowerAscii
      ((base32BitChunks (pk ++ (sha3_256 (checksumSalt ++ pk ++ [3])).take 2 ++ [3])).map
        b32chr)) ∧
    (checksumSalt ++ pk ++ [3]).length = 48 ∧
    (pk ++ (sha3_256 (checksumSalt ++ pk ++ [3])).take 2 ++ [3]).length = 35 ∧
    (encodePublicKey pk).length = 56 ∧
    (∀ c ∈ (encodePublicKey pk).data, c ∈ b32lower) := by
  have hablen : (addressBytes pk).length = 35 := addressBytes_length pk hl
  have habb : ∀ b ∈ addressBytes pk, b < 256 := addressBytes_lt pk hb
  have henc : base32Encode (addressBytes pk) =
      (base32BitChunks (addressBytes pk)).map b32chr :=
    base32Encode_eq_bitChunks 7 (addressBytes pk) (by omega) habb
  have hprops := base32Encode_props 7 (addressBytes pk) (by omega) habb
  have hsalt : checksumSalt.length = 15 := by decide
  refine ⟨?_, ?_, hablen, ?_, ?_⟩
  · rw [encodePublicKey_eq, henc]
    rfl
  · simp [List.length_append, hsalt, hl]
  · exact encodePublicKey_length pk hl hb
  · intro c hc
    rw [encodePublicKey_eq] at hc
    obtain ⟨c0, hc0, h⟩ := List.mem_map.1 hc
    subst h
    exact lowerChar_mem c0 (hprops.2 c0 hc0)

/-- Witness for C1 at the all-zero public key. -/
theorem C1_addressEncoder_witness :
    (encodePublicKey (List.replicate 32 0)).length = 56 :=
  (C1_addressEncoder (List.replicate 32 0) (by simp) (by simp)).2.2.2.1

/-! ## Claim C2: the secret key expander -/

set_option maxRecDepth 4096 in
/-- Clearing the low three bits leaves a multiple of 8. -/
theorem clamp0_mod8 : ∀ x < 256, (x &&& 248) % 8 = 0 := by decide

set_option maxRecDepth 4096 in
/-- The clamped top byte is below 128. -/
theorem clamp31_lt : ∀ x < 256, (x &&& 127 ||| 64) < 128 := by decide

set_option maxRecDepth 4096 in
/-- The clamped top byte has bit 6 set. -/
theorem clamp31_bit6 : ∀ x < 256, (x &&& 127 ||| 64) / 64 % 2 = 1 := by decide

set_option maxRecDepth 4096 in
/-- C2: `expandSecretKey` returns the 64-byte SHA-512 digest of the first
32 bytes of the private key, clamped at bytes 0 and 31 and unchanged
elsewhere; hence byte 0 is a multiple of 8, byte 31 is below 128 with bit 6
set; and the result depends only on the first 32 input bytes (purity and
determinism of the expander). -/
theorem C2_secretKeyExpander (sk : List Nat) :
    (expandSecretKey sk).length = 64 ∧
    (expandSecretKey sk).getD 0 0 = (sha512 (sk.take 32)).getD 0 0 &&& 248 ∧
    (expandSecretKey sk).getD 31 0 = ((sha512 (sk.take 32)).getD 31 0 &&& 127) ||| 64 ∧
    (∀ i, i < 64 → i ≠ 0 → i ≠ 31 →
      (expandSecretKey sk).getD i 0 = (sha512 (sk.take 32)).getD i 0) ∧
    (expandSecretKey sk).getD 0 0 % 8 = 0 ∧
    (expandSecretKey sk).getD 31 0 < 128 ∧
    (expandSecretKey sk).getD 31 0 / 64 % 2 = 1 ∧
    (∀ sk2 : List Nat, sk.take 32 = sk2.take 32 →
      expandSecretKey sk = expandSecretKey sk2) := by
  have hlen : (sha512 (sk.take 32)).length = 64 := sha512_length _
  have hbyte : ∀ i, (sha512 (sk.take 32)).getD i 0 < 256 :=
    getD_lt_of_forall (sha512_lt _)
  have hE : expandSecretKey sk =
      (((sha512 (sk.take 32)).set 0 ((sha512 (sk.take 32)).getD 0 0 &&& 248)).set 31
        ((((sha512 (sk.take 32)).set 0 ((sha512 (sk.take 32)).getD 0 0 &&& 248)).getD 31 0)
          &&& 127)).set 31
        (((((sha512 (sk.take 32)).set 0 ((sha512 (sk.take 32)).getD 0 0 &&& 248)).set 31
          ((((sha512 (sk.take 32)).set 0
            ((sha512 (sk.take 32)).getD 0 0 &&& 248)).getD 31 0) &&& 127)).getD 31 0)
          ||| 64) := rfl
  have hg31a : ((sha512 (sk.take 32)).set 0
      ((sha512 (sk.take 32)).getD 0 0 &&& 248)).getD 31 0 =
      (sha512 (sk.take 32)).getD 31 0 := by
    rw [List.getD_eq_getElem?_getD, List.getElem?_set_ne (by omega),
      ← List.getD_eq_getElem?_getD]
  have hElen : (expandSecretKey sk).length = 64 := by
    rw [hE]
    simp [hlen]
  have hg0 : (expandSecretKey sk).getD 0 0 = (sha512 (sk.take 32)).getD 0 0 &&& 248 := by
    rw [hE, List.getD_eq_getElem?_getD, List.getElem?_set_ne (by omega),
      List.getElem?_set_ne (by omega), List.getElem?_set_self (by simp [hlen])]
    rfl
  have hg31 : (expandSecretKey sk).getD 31 0 =
      ((sha512 (sk.take 32)).getD 31 0 &&& 127) ||| 64 := by
    rw [hE, List.getD_eq_getElem?_getD, List.getElem?_set_self (by simp [hlen])]
    simp only [Option.getD_some]
    rw [List.getD_eq_getElem?_getD, List.getElem?_set_self (by simp [hlen])]
    simp only [Option.getD_some]
    rw [hg31a]
  refine ⟨hElen, hg0, hg31, ?_, ?_, ?_, ?_, ?_⟩
  · intro i hi hi0 hi31
    rw [hE, List.getD_eq_getElem?_getD, List.getElem?_set_ne (by omega),
      List.getElem?_set_ne (by omega), List.getElem?_set_ne (by omega),
      ← List.getD_eq_getElem?_getD]
  · rw [hg0]
    exact clamp0_mod8 _ (hbyte 0)
  · rw [hg31]
    exact clamp31_lt _ (hbyte 31)
  · rw [hg31]
    exact clamp31_bit6 _ (hbyte 31)
  · intro sk2 htake
    rw [expandSecretKey, expandSecretKey, htake]

/-- Witness for C2 at a concrete 64-byte private key. -/
theorem C2_secretKeyExpander_witness :
    (expandSecretKey (List.replicate 64 1)).getD 5 0 =
      (sha512 ((List.replicate 64 1).take 32)).getD 5 0 :=
  (C2_secretKeyExpander (List.replicate 64 1)).2.2.2.1 5 (by omega) (by omega) (by omega)

/-! ## Claim C3: encode/decode round trip -/

/-- C3: base32-decoding the 56-character address produced by the encoder
yields exactly the 35-byte buffer {32-byte public key, 2-byte truncated
checksum, version byte 3}; in particular the first 32 decoded bytes are the
original public key, so no information about the embedded key is lost. -/
theorem C3_roundTrip (pk : List Nat) (hl : pk.length = 32)
    (hb : ∀ b ∈ pk, b < 256) :
    base32Decode (encodePublicKey pk) =
      pk ++ (sha3_256 (checksumSalt ++ pk ++ [3])).take 2 ++ [3] ∧
    (base32Decode (encodePublicKey pk)).take 32 = pk := by
  have hablen : (addressBytes pk).length = 35 := addressBytes_length pk hl
  have habb : ∀ b ∈ addressBytes pk, b < 256 := addressBytes_lt pk hb
  have hdec : base32Decode (encodePublicKey pk) = addressBytes pk := by
    show base32DecodeIdx (((base32Encode (addressBytes pk)).map lowerChar).map b32idx) =
      addressBytes pk
    exact base32_roundtrip 7 (addressBytes pk) (by omega) habb
  refine ⟨hdec, ?_⟩
  rw [hdec, addressBytes, List.append_assoc, List.take_left' hl]

/-- Witness for C3 at the all-zero public key. -/
theorem C3_roundTrip_witness :
    (base32Decode (encodePublicKey (List.replicate 32 0))).take 32 =
      List.replicate 32 0 :=
  (C3_roundTrip (List.replicate 32 0) (by simp) (by simp)).2

/-! ## The stateful parts of `main.go`

Filesystem writes, the per-key match loop, the shared counters and the
shutdown protocol are embedded as events, traces and step relations. -/

/-- A filesystem operation attempted by `save` (path, for writes contents,
and permission mode bits). -/
inductive FsOp where
  | mkdirAll (path : String) (mode : Nat)
  | writeFile (path : String) (contents : List Nat) (mode : Nat)
  deriving DecidableEq

/-- An observable event of a worker iteration or of a `save` run. -/
inductive Event where
  | emit (addr : String)
  | saveWgAdd
  | dispatchSave (addr : String)
  | incFound
  | wgDone
  | fsOp (op : FsOp)
  | fsError (op : FsOp)
  | saveReturn
  deriving DecidableEq

/-- Is the event an emission on the result channel? -/
def isEmit : Event → Bool
  | .emit _ => true
  | _ => false

/-- Is the event the atomic increment of the `found` counter? -/
def isIncFound : Event → Bool
  | .incFound => true
  | _ => false

/-- The 32-byte header of `hs_ed25519_secret_key`: the 29-byte ASCII literal
plus three zero-padding bytes. -/
def secretKeyHeader : List Nat :=
  "== ed25519v1-secret: type0 ==".toList.map Char.toNat ++ [0, 0, 0]

/-- The 32-byte header of `hs_ed25519_public_key`: the 29-byte ASCII literal
plus three zero-padding bytes. -/
def publicKeyHeader : List Nat :=
  "== ed25519v1-public: type0 ==".toList.map Char.toNat ++ [0, 0, 0]

/-- The directory creation of `save`: `os.MkdirAll(onionAddress, 0700)`. -/
def saveDirOp (onionAddress : String) : FsOp := .mkdirAll onionAddress 448

/-- The secret key file write of `save` (mode 0600). -/
def saveSecretOp (onionAddress : String) (secretKey : List Nat) : FsOp :=
  .writeFile (onionAddress ++ "/hs_ed25519_secret_key") (secretKeyHeader ++ secretKey) 384

/-- The public key file write of `save` (mode 0600). -/
def savePublicOp (onionAddress : String) (publicKey : List Nat) : FsOp :=
  .writeFile (onionAddress ++ "/hs_ed25519_public_key") (publicKeyHeader ++ publicKey) 384

/-- The hostname file write of `save` (mode 0600): address, `.onion`, newline. -/
def saveHostnameOp (onionAddress : String) : FsOp :=
  .writeFile (onionAddress ++ "/hostname")
    ((onionAddress ++ ".onion\n").toList.map Char.toNat) 384

/-- The events of one run of `save`, given an oracle saying which filesystem
operations succeed: the four operations are attempted in source order
(directory, secret key, public key, hostname); the first failure is reported
and ends the run early; the deferred `saveWg.Done` (`saveReturn`) always
runs. -/
def saveEvents (onionAddress : String) (publicKey secretKey : List Nat)
    (ok : FsOp → Bool) : List Event :=
  if ok (saveDirOp onionAddress) = false then
    [.fsError (saveDirOp onionAddress), .saveReturn]
  else if ok (saveSecretOp onionAddress secretKey) = false then
    [.fsOp (saveDirOp onionAddress), .fsError (saveSecretOp onionAddress secretKey),
     .saveReturn]
  else if ok (savePublicOp onionAddress publicKey) = false then
    [.fsOp (saveDirOp onionAddress), .fsOp (saveSecretOp onionAddress secretKey),
     .fsError (savePublicOp onionAddress publicKey), .saveReturn]
  else if ok (saveHostnameOp onionAddress) = false then
    [.fsOp (saveDirOp onionAddress), .fsOp (saveSecretOp onionAddress secretKey),
     .fsOp (savePublicOp onionAddress publicKey), .fsError (saveHostnameOp onionAddress),
     .saveReturn]
  else
    [.fsOp (saveDirOp onionAddress), .fsOp (saveSecretOp onionAddress secretKey),
     .fsOp (savePublicOp onionAddress publicKey), .fsOp (saveHostnameOp onionAddress),
     .saveReturn]

/-- The inner pattern loop of `generateBatch` for one key (lines 58-67):
patterns are tried in insertion order; on the first whose matcher accepts the
address the worker emits the address, registers the save on `saveWg`,
dispatches `save`, increments `found`, calls `wg.Done` and breaks.  Returns
the index of the matching pattern (if any) and the worker's events. -/
def checkAddress (regexps : List (String → Bool)) (onionAddress : String) :
    Option Nat × List Event :=
  match regexps with
  | [] => (none, [])
  | re :: rest =>
    if re onionAddress then
      (some 0, [.emit onionAddress, .saveWgAdd, .dispatchSave onionAddress,
        .incFound, .wgDone])
    else
      let r := checkAddress rest onionAddress
      (r.1.map (fun i => i + 1), r.2)

/-- An interleaving of two event sequences that preserves each one's order. -/
inductive Merge : List Event → List Event → List Event → Prop where
  | nil : Merge [] [] []
  | left {a : Event} {as bs cs : List Event} :
      Merge as bs cs → Merge (a :: as) bs (a :: cs)
  | right {b : Event} {as bs cs : List Event} :
      Merge as bs cs → Merge as (b :: bs) (b :: cs)

/-- Traces of one matching key: the worker's events up to the `go save`
dispatch happen first in source order; the dispatched `save` then runs
concurrently with the worker's remaining events (`found++`, `wg.Done`). -/
def OneMatchTrace (addr : String) (publicKey secretKey : List Nat)
    (ok : FsOp → Bool) (t : List Event) : Prop :=
  ∃ m, Merge [.incFound, .wgDone] (saveEvents addr publicKey secretKey ok) m ∧
    t = .emit addr :: .saveWgAdd :: .dispatchSave addr :: m

/-- Two’s-complement wraparound of a 64-bit signed integer, the overflow
behaviour of Go’s `int64` under `atomic.AddInt64`. -/
def int64Wrap (x : Int) : Int :=
  (x + 9223372036854775808) % 18446744073709551616 - 9223372036854775808

/-- The two shared counters (`generated`, `found`), each a 64-bit signed
integer. -/
structure Counters where
  generated : Int
  found : Int
  deriving DecidableEq

/-- The batch size constant of the source. -/
def batchSize : Nat := 10000

/-- The only counter mutations present in the source: one atomic add of
`batchSize` to `generated` per completed batch, one atomic add of 1 to
`found` per match. -/
inductive CounterOp where
  | addGenerated
  | addFound
  deriving DecidableEq

/-- Effect of one counter mutation: an `atomic.AddInt64`, wrapping at the
int64 boundary. -/
def applyCounterOp (c : Counters) : CounterOp → Counters
  | .addGenerated => ⟨int64Wrap (c.generated + (batchSize : Int)), c.found⟩
  | .addFound => ⟨c.generated, int64Wrap (c.found + 1)⟩

/-- Effect of a sequence of counter mutations. -/
def runCounterOps (c : Counters) (ops : List CounterOp) : Counters :=
  ops.foldl applyCounterOp c

/-- Where `main` stands in its shutdown sequence (lines 190-195): blocked in
`wg.Wait`; past it (and past `close(resultChan)`) blocked in `saveWg.Wait`;
past `saveWg.Wait` but not yet returned; or returned, ending the process. -/
inductive MainPhase where
  | running
  | draining
  | released
  | exited
  deriving DecidableEq

/-- Coordinator-visible state of the shutdown protocol: how many saves have
been registered on `saveWg` (`saveWg.Add(1)` immediately followed by
`go save`), how many have completed (the deferred `saveWg.Done`), how many
found events were reported (`wg.Done`), how many matches are between their
`saveWg.Add` and their `wg.Done`, and `main`’s phase. -/
structure CoordState where
  saveAdded : Nat
  saveDone : Nat
  founds : Nat
  pending : Nat
  phase : MainPhase
  deriving DecidableEq

/-- The initial coordinator state. -/
def initCoord : CoordState := ⟨0, 0, 0, 0, .running⟩

/-- Transitions of the shutdown protocol.  Workers (lines 45-69) loop forever
and have no exit condition, so as long as the process is alive — in every
phase but `exited` — a matching worker may register and dispatch a save
(`saveWg.Add(1)`; `go save`, lines 61-62) and later report its found event
(`found++`; `wg.Done()`, lines 63-64), and a dispatched save may complete.
`main` moves through its phases in order: `wg.Wait` (line 190) returns once
at least `target` found events were reported; `saveWg.Wait` (line 194)
returns at an instant when every save registered so far has completed; after
that `main` returns unconditionally, ending the process.  Nothing stops a
worker from registering a new save between the release of `saveWg.Wait` and
the process exit. -/
inductive CoordStep (target : Nat) : CoordState → CoordState → Prop where
  | register (s : CoordState) (h : s.phase ≠ .exited) :
      CoordStep target s ⟨s.saveAdded + 1, s.saveDone, s.founds, s.pending + 1, s.phase⟩
  | matchDone (s : CoordState) (h : s.phase ≠ .exited) (hp : 0 < s.pending) :
      CoordStep target s ⟨s.saveAdded, s.saveDone, s.founds + 1, s.pending - 1, s.phase⟩
  | saveComplete (s : CoordState) (h : s.phase ≠ .exited)
      (hs : s.saveDone < s.saveAdded) :
      CoordStep target s ⟨s.saveAdded, s.saveDone + 1, s.founds, s.pending, s.phase⟩
  | wgRelease (s : CoordState) (h : s.phase = .running) (hf : target ≤ s.founds) :
      CoordStep target s ⟨s.saveAdded, s.saveDone, s.founds, s.pending, .draining⟩
  | saveWgRelease (s : CoordState) (h : s.phase = .draining)
      (hs : s.saveDone = s.saveAdded) :
      CoordStep target s ⟨s.saveAdded, s.saveDone, s.founds, s.pending, .released⟩
  | processExit (s : CoordState) (h : s.phase = .released) :
      CoordStep target s ⟨s.saveAdded, s.saveDone, s.founds, s.pending, .exited⟩

/-- States reachable from the initial state under the shutdown protocol. -/
inductive CoordReachable (target : Nat) : CoordState → Prop where
  | init : CoordReachable target initCoord
  | step {s t : CoordState} : CoordReachable target s → CoordStep target s t →
      CoordReachable target t

/-- `strconv.Atoi`, modelled for the argument strings the program sees: an
optional sign followed by one or more decimal digits (range checks of the
64-bit implementation ignored). -/
def goAtoi (s : String) : Option Int :=
  match s.data with
  | [] => none
  | ch :: rest =>
    let digs := if ch = Char.ofNat 45 ∨ ch = Char.ofNat 43 then rest else ch :: rest
    if digs.isEmpty then none
    else if digs.all (fun c => 48 ≤ c.toNat && c.toNat ≤ 57) then
      let v : Int := Int.ofNat (digs.foldl (fun acc c => acc * 10 + (c.toNat - 48)) 0)
      some (if ch = Char.ofNat 45 then -v else v)
    else none

/-- The argument loop of `main` (lines 145-159): each argument is compiled as
a regex, except that the final argument is first tried as a number — on
success it becomes the target count and the loop breaks; on failure Go's
`Atoi` has already assigned 0 to `numAddresses` and the argument is compiled
as a regex.  An argument the compile oracle rejects aborts with exit code 1.
Accumulates the compiled pattern strings. -/
def parseLoop (compileOk : String → Bool) :
    List String → Int → List String → Except Nat (List String × Int)
  | [], cnt, acc => Except.ok (acc, cnt)
  | a :: rest, cnt, acc =>
    if rest.isEmpty then
      match goAtoi a with
      | some n => Except.ok (acc, n)
      | none => if compileOk a then Except.ok (acc ++ [a], 0) else Except.error 1
    else if compileOk a then parseLoop compileOk rest cnt (acc ++ [a])
    else Except.error 1

/-- The startup logic of `main` (lines 133-172): usage check, argument loop,
the "at least one valid regex" check, and the clamp of the target count to at
least 1. -/
def mainSetup (args : List String) (compileOk : String → Bool) :
    Except Nat (List String × Int) :=
  if args.length < 2 then Except.error 1
  else
    match parseLoop compileOk (args.drop 1) 1 [] with
    | Except.error c => Except.error c
    | Except.ok (regexps, cnt) =>
      if regexps.length = 0 then Except.error 1
      else Except.ok (regexps, if cnt < 1 then 1 else cnt)

/-! ## Claim C4: the persistence writer -/

set_option maxRecDepth 4096 in
/-- C4: when no filesystem operation fails, `save` creates the directory
named exactly by the 56-character address with mode 448 (octal 0700) and
writes, each with mode 384 (octal 0600): `hs_ed25519_secret_key` with the
32-byte header (29-byte literal `"== ed25519v1-secret: type0 =="` plus three
zero bytes) followed by the 64-byte expanded secret key,
`hs_ed25519_public_key` with the analogous public header plus the public key,
and `hostname` with the address, `".onion"` and a newline. -/
theorem C4_persistenceWriter (pk sk : List Nat) (hl : pk.length = 32)
    (hb : ∀ b ∈ pk, b < 256) (ok : FsOp → Bool) (hok : ∀ op, ok op = true) :
    saveEvents (encodePublicKey pk) pk sk ok =
      [.fsOp (.mkdirAll (encodePublicKey pk) 448),
       .fsOp (.writeFile (encodePublicKey pk ++ "/hs_ed25519_secret_key")
         (secretKeyHeader ++ sk) 384),
       .fsOp (.writeFile (encodePublicKey pk ++ "/hs_ed25519_public_key")
         (publicKeyHeader ++ pk) 384),
       .fsOp (.writeFile (encodePublicKey pk ++ "/hostname")
         ((encodePublicKey pk ++ ".onion\n").toList.map Char.toNat) 384),
       .saveReturn] ∧
    secretKeyHeader.length = 32 ∧
    publicKeyHeader.length = 32 ∧
    (encodePublicKey pk).length = 56 := by
  refine ⟨?_, by decide, by decide, encodePublicKey_length pk hl hb⟩
  simp [saveEvents, hok, saveDirOp, saveSecretOp, savePublicOp, saveHostnameOp]

/-- Witness for C4 at the all-zero key pair with an all-success oracle. -/
theorem C4_persistenceWriter_witness :
    saveEvents (encodePublicKey (List.replicate 32 0)) (List.replicate 32 0)
      (List.replicate 64 0) (fun _ => true) =
      [.fsOp (.mkdirAll (encodePublicKey (List.replicate 32 0)) 448),
       .fsOp (.writeFile (encodePublicKey (List.replicate 32 0) ++ "/hs_ed25519_secret_key")
         (secretKeyHeader ++ List.replicate 64 0) 384),
       .fsOp (.writeFile (encodePublicKey (List.replicate 32 0) ++ "/hs_ed25519_public_key")
         (publicKeyHeader ++ List.replicate 32 0) 384),
       .fsOp (.writeFile (encodePublicKey (List.replicate 32 0) ++ "/hostname")
         ((encodePublicKey (List.replicate 32 0) ++ ".onion\n").toList.map Char.toNat) 384),
       .saveReturn] :=
  (C4_persistenceWriter (List.replicate 32 0) (List.replicate 64 0) (by simp)
    (by simp) (fun _ => true) (fun _ => rfl)).1

/-! ## Claim C5: the pattern matcher -/

/-- C5: for a key whose address matches at least one pattern, the loop tests
the patterns in insertion order and stops at the first match: the reported
index is a matching pattern, all earlier patterns reject the address, the
address is emitted exactly once and the `found` counter is incremented
exactly once. -/
theorem C5_matcher (regexps : List (String → Bool)) (addr : String)
    (hm : ∃ re ∈ regexps, re addr = true) :
    ∃ i, (checkAddress regexps addr).1 = some i ∧
      (∃ re0, regexps[i]? = some re0 ∧ re0 addr = true) ∧
      (∀ j, j < i → ∀ rej, regexps[j]? = some rej → rej addr = false) ∧
      (checkAddress regexps addr).2.countP isEmit = 1 ∧
      (checkAddress regexps addr).2.countP isIncFound = 1 := by
  induction regexps with
  | nil =>
    obtain ⟨re, h, _⟩ := hm
    simp at h
  | cons re rest ih =>
    by_cases h : re addr = true
    · refine ⟨0, by simp [checkAddress, h], ⟨re, by simp, h⟩, by omega, ?_, ?_⟩
      · simp [checkAddress, h, isEmit, List.countP_cons]
      · simp [checkAddress, h, isIncFound, List.countP_cons]
    · rw [Bool.not_eq_true] at h
      obtain ⟨re0, hmem, htrue⟩ := hm
      rcases List.mem_cons.1 hmem with heq | hmem2
      · subst heq
        rw [h] at htrue
        cases htrue
      · obtain ⟨i, h1, h2, h3, h4, h5⟩ := ih ⟨re0, hmem2, htrue⟩
        refine ⟨i + 1, ?_, ?_, ?_, ?_, ?_⟩
        · simp [checkAddress, h, h1]
        · obtain ⟨re1, hre1, ht1⟩ := h2
          exact ⟨re1, by simpa using hre1, ht1⟩
        · intro j hj rej hrej
          cases j with
          | zero =>
            simp only [List.getElem?_cons_zero, Option.some.injEq] at hrej
            rw [← hrej]
            exact h
          | succ j2 =>
            exact h3 j2 (by omega) rej (by simpa using hrej)
        · simpa [checkAddress, h] using h4
        · simpa [checkAddress, h] using h5

/-- Witness for C5 with two patterns where only the second matches. -/
theorem C5_matcher_witness :
    (checkAddress [fun _ => false, fun _ => true] "x").2.countP isEmit = 1 ∧
    (checkAddress [fun _ => false, fun _ => true] "x").2.countP isIncFound = 1 := by
  obtain ⟨i, _, _, _, h4, h5⟩ :=
    C5_matcher [fun _ => false, fun _ => true] "x" ⟨fun _ => true, by simp, rfl⟩
  exact ⟨h4, h5⟩

/-! ## Claim C6: the shared counters -/

/-- Projection of a counter pair. -/
theorem Counters_generated (a b : Int) : (⟨a, b⟩ : Counters).generated = a := rfl

/-- Projection of a counter pair. -/
theorem Counters_found (a b : Int) : (⟨a, b⟩ : Counters).found = b := rfl

/-- In-range values are unchanged by the int64 wraparound. -/
theorem int64Wrap_eq_self (x : Int) (h1 : -9223372036854775808 ≤ x)
    (h2 : x ≤ 9223372036854775807) : int64Wrap x = x := by
  rw [int64Wrap]
  omega

/-- While neither counter has crossed the int64 maximum, a run of mutations
accumulates exactly `batchSize` per batch and 1 per match, with no wrap. -/
theorem runCounterOps_exact : ∀ (ops : List CounterOp) (c : Counters),
    -9223372036854775808 ≤ c.generated → -9223372036854775808 ≤ c.found →
    c.generated + (batchSize : Int) * (ops.count CounterOp.addGenerated : Int) ≤
      9223372036854775807 →
    c.found + (ops.count CounterOp.addFound : Int) ≤ 9223372036854775807 →
    runCounterOps c ops =
      ⟨c.generated + (batchSize : Int) * (ops.count CounterOp.addGenerated : Int),
       c.found + (ops.count CounterOp.addFound : Int)⟩ := by
  intro ops
  induction ops with
  | nil =>
    intro c h1 h2 h3 h4
    simp [runCounterOps]
  | cons op t ih =>
    intro c h1 h2 h3 h4
    cases op with
    | addGenerated =>
      have hc1 : (CounterOp.addGenerated :: t).count CounterOp.addGenerated =
          t.count CounterOp.addGenerated + 1 := by simp
      have hc2 : (CounterOp.addGenerated :: t).count CounterOp.addFound =
          t.count CounterOp.addFound := by simp
      rw [hc1] at h3 ⊢
      rw [hc2] at h4 ⊢
      simp only [batchSize] at h3 ⊢
      push_cast at h3 ⊢
      have hw : applyCounterOp c CounterOp.addGenerated =
          ⟨c.generated + 10000, c.found⟩ := by
        simp only [applyCounterOp, batchSize]
        congr 1
        push_cast
        apply int64Wrap_eq_self
        · omega
        · omega
      have ht := ih ⟨c.generated + 10000, c.found⟩
        (by rw [Counters_generated]; omega) (by rw [Counters_found]; omega)
        (by rw [Counters_generated]; simp only [batchSize]; push_cast; omega)
        (by rw [Counters_found]; omega)
      rw [show runCounterOps c (CounterOp.addGenerated :: t) =
        runCounterOps (applyCounterOp c CounterOp.addGenerated) t from rfl, hw, ht]
      rw [Counters_generated, Counters_found]
      simp only [batchSize]
      push_cast
      simp only [Counters.mk.injEq]
      constructor
      · ring
      · trivial
    | addFound =>
      have hc1 : (CounterOp.addFound :: t).count CounterOp.addGenerated =
          t.count CounterOp.addGenerated := by simp
      have hc2 : (CounterOp.addFound :: t).count CounterOp.addFound =
          t.count CounterOp.addFound + 1 := by simp
      rw [hc1] at h3 ⊢
      rw [hc2] at h4 ⊢
      push_cast at h4 ⊢
      have hw : applyCounterOp c CounterOp.addFound =
          ⟨c.generated, c.found + 1⟩ := by
        simp only [applyCounterOp]
        congr 1
        apply int64Wrap_eq_self
        · omega
        · omega
      have ht := ih ⟨c.generated, c.found + 1⟩
        (by rw [Counters_generated]; omega) (by rw [Counters_found]; omega)
        (by rw [Counters_generated]; omega)
        (by rw [Counters_found]; omega)
      rw [show runCounterOps c (CounterOp.addFound :: t) =
        runCounterOps (applyCounterOp c CounterOp.addFound) t from rfl, hw, ht]
      rw [Counters_generated, Counters_found]
      simp only [Counters.mk.injEq]
      constructor
      · trivial
      · ring

/-- Counterexample to C6 as stated: the counters are wrapping 64-bit signed
integers, so at the int64 maximum the atomic increment of `found` wraps to
the minimum — a decrease.  Unconditional monotonicity over arbitrary
mutation sequences therefore fails (though the wrap point is unreachable in
any real run). -/
theorem C6_counterexample :
    (applyCounterOp ⟨0, 9223372036854775807⟩ CounterOp.addFound).found <
      (⟨0, 9223372036854775807⟩ : Counters).found := by
  decide

/-- C6 (amended): the only mutations of the two shared counters are the two
atomic adds of the source (`generated + batchSize` per batch, `found + 1` per
match, each wrapped at the int64 boundary), and for every run in which
neither counter crosses the int64 maximum — which would take on the order of
2^63 increments — no wrap occurs: the counters accumulate exactly the
increments and are monotonically non-decreasing at every prefix; no
operation decrements or resets them. -/
theorem C6_counters (c : Counters) (ops : List CounterOp)
    (hg0 : -9223372036854775808 ≤ c.generated)
    (hf0 : -9223372036854775808 ≤ c.found)
    (hg : c.generated + (batchSize : Int) * (ops.count CounterOp.addGenerated : Int) ≤
      9223372036854775807)
    (hf : c.found + (ops.count CounterOp.addFound : Int) ≤ 9223372036854775807) :
    (∀ op, applyCounterOp c op =
        ⟨int64Wrap (c.generated + (batchSize : Int)), c.found⟩ ∨
      applyCounterOp c op = ⟨c.generated, int64Wrap (c.found + 1)⟩) ∧
    runCounterOps c ops =
      ⟨c.generated + (batchSize : Int) * (ops.count CounterOp.addGenerated : Int),
       c.found + (ops.count CounterOp.addFound : Int)⟩ ∧
    c.generated ≤ (runCounterOps c ops).generated ∧
    c.found ≤ (runCounterOps c ops).found ∧
    (∀ pre suf, ops = pre ++ suf →
      (runCounterOps c pre).generated ≤ (runCounterOps c ops).generated ∧
      (runCounterOps c pre).found ≤ (runCounterOps c ops).found) := by
  have hex := runCounterOps_exact ops c hg0 hf0 hg hf
  refine ⟨?_, hex, ?_, ?_, ?_⟩
  · intro op
    cases op
    · exact Or.inl rfl
    · exact Or.inr rfl
  · rw [hex]
    simp only [Counters_generated, batchSize]
    push_cast
    omega
  · rw [hex]
    simp only [Counters_found]
    omega
  · intro pre suf h
    subst h
    have hcg : (pre ++ suf).count CounterOp.addGenerated =
        pre.count CounterOp.addGenerated + suf.count CounterOp.addGenerated :=
      List.count_append _ _ _
    have hcf : (pre ++ suf).count CounterOp.addFound =
        pre.count CounterOp.addFound + suf.count CounterOp.addFound :=
      List.count_append _ _ _
    rw [hcg] at hg
    rw [hcf] at hf
    simp only [batchSize] at hg hf
    push_cast at hg hf
    have hexp := runCounterOps_exact pre c hg0 hf0
      (by simp only [batchSize]; push_cast; omega) (by omega)
    rw [hex, hexp]
    simp only [Counters_generated, Counters_found]
    rw [hcg, hcf]
    simp only [batchSize]
    push_cast
    constructor
    · omega
    · omega

/-- Witness for C6 on a concrete in-range mutation sequence. -/
theorem C6_counters_witness :
    runCounterOps ⟨0, 0⟩ [CounterOp.addGenerated, CounterOp.addFound] =
      ⟨10000, 1⟩ := by
  have h := (C6_counters ⟨0, 0⟩ [CounterOp.addGenerated, CounterOp.addFound]
    (by decide) (by decide) (by decide) (by decide)).2.1
  rw [h]
  decide

/-! ## Claim C7: shutdown ordering -/

/-- The found-target half of the shutdown contract does hold: once `main` has
passed `wg.Wait` (every phase after `running`), at least `target` found
events were reported — in particular in every exited state. -/
theorem coordReachable_foundTarget (target : Nat) (s : CoordState)
    (hr : CoordReachable target s) (h : s.phase ≠ MainPhase.running) :
    target ≤ s.founds := by
  induction hr with
  | init => simp [initCoord] at h
  | step hr2 hstep ih =>
    cases hstep with
    | register h2 => exact ih h
    | matchDone h2 hp => exact Nat.le_succ_of_le (ih h)
    | saveComplete h2 hs2 => exact ih h
    | wgRelease h2 hf => exact hf
    | saveWgRelease h2 hs2 =>
      apply ih
      rw [h2]
      simp
    | processExit h2 =>
      apply ih
      rw [h2]
      simp

/-- C7 fails on the code: because workers never stop, a second match can
register and dispatch its save (`saveWg.Add(1)`; `go save`, lines 61-62) in
the window after `saveWg.Wait` (line 194) has been released and before
`main` returns.  The trace below — target 1; one match found, counted and
persisted; both waits released; then a second match dispatches its save; then
the process exits — reaches an exited state in which a dispatched save has
not completed, contradicting the claim’s second condition (its first
condition, the found target, holds: see `coordReachable_foundTarget`). -/
theorem C7_dispatchIncomplete :
    CoordReachable 1 ⟨2, 1, 1, 1, MainPhase.exited⟩ ∧
    1 ≤ (⟨2, 1, 1, 1, MainPhase.exited⟩ : CoordState).founds ∧
    (⟨2, 1, 1, 1, MainPhase.exited⟩ : CoordState).saveDone <
      (⟨2, 1, 1, 1, MainPhase.exited⟩ : CoordState).saveAdded := by
  refine ⟨?_, by decide, by decide⟩
  exact CoordReachable.step
    (CoordReachable.step
      (CoordReachable.step
        (CoordReachable.step
          (CoordReachable.step
            (CoordReachable.step
              (CoordReachable.step CoordReachable.init
                (CoordStep.register initCoord (by decide)))
              (CoordStep.matchDone ⟨1, 0, 0, 1, .running⟩ (by decide) (by decide)))
            (CoordStep.saveComplete ⟨1, 0, 1, 0, .running⟩ (by decide) (by decide)))
          (CoordStep.wgRelease ⟨1, 1, 1, 0, .running⟩ rfl (by decide)))
        (CoordStep.saveWgRelease ⟨1, 1, 1, 0, .draining⟩ rfl rfl))
      (CoordStep.register ⟨1, 1, 1, 0, .released⟩ (by decide)))
    (CoordStep.processExit ⟨2, 1, 1, 1, .released⟩ rfl)
/-! ## Claims C8 and C10: persistence failures and write order -/

/-- A merge counts each predicate as the sum over its two inputs. -/
theorem Merge.countP_eq (p : Event → Bool) {as bs cs : List Event}
    (h : Merge as bs cs) : cs.countP p = as.countP p + bs.countP p := by
  induction h with
  | nil => rfl
  | left h2 ih => rw [List.countP_cons, List.countP_cons, ih]; omega
  | right h2 ih => rw [List.countP_cons, List.countP_cons, ih]; omega

/-- Elements of the left input of a merge are in the merge. -/
theorem Merge.subset_left {as bs cs : List Event} (h : Merge as bs cs) :
    ∀ x ∈ as, x ∈ cs := by
  induction h with
  | nil => intro x hx; exact hx
  | left h2 ih =>
    intro x hx
    rcases List.mem_cons.1 hx with rfl | hx2
    · exact List.mem_cons_self _ _
    · exact List.mem_cons_of_mem _ (ih x hx2)
  | right h2 ih => intro x hx; exact List.mem_cons_of_mem _ (ih x hx)

/-- Elements of the right input of a merge are in the merge. -/
theorem Merge.subset_right {as bs cs : List Event} (h : Merge as bs cs) :
    ∀ x ∈ bs, x ∈ cs := by
  induction h with
  | nil => intro x hx; exact hx
  | left h2 ih => intro x hx; exact List.mem_cons_of_mem _ (ih x hx)
  | right h2 ih =>
    intro x hx
    rcases List.mem_cons.1 hx with rfl | hx2
    · exact List.mem_cons_self _ _
    · exact List.mem_cons_of_mem _ (ih x hx2)

/-- Every element of a merge comes from one of the two inputs. -/
theorem Merge.mem_or {as bs cs : List Event} (h : Merge as bs cs) :
    ∀ x ∈ cs, x ∈ as ∨ x ∈ bs := by
  induction h with
  | nil => intro x hx; exact absurd hx (List.not_mem_nil x)
  | left h2 ih =>
    intro x hx
    rcases List.mem_cons.1 hx with rfl | hx2
    · exact Or.inl (List.mem_cons_self _ _)
    · rcases ih x hx2 with h3 | h3
      · exact Or.inl (List.mem_cons_of_mem _ h3)
      · exact Or.inr h3
  | right h2 ih =>
    intro x hx
    rcases List.mem_cons.1 hx with rfl | hx2
    · exact Or.inr (List.mem_cons_self _ _)
    · rcases ih x hx2 with h3 | h3
      · exact Or.inl h3
      · exact Or.inr (List.mem_cons_of_mem _ h3)

/-- The five possible event sequences of a `save` run: failure at one of the
four operations, or full success; each is a prefix of the next plus its
error/return tail. -/
theorem saveEvents_cases (addr : String) (pk sk : List Nat) (ok : FsOp → Bool) :
    saveEvents addr pk sk ok = [.fsError (saveDirOp addr), .saveReturn] ∨
    saveEvents addr pk sk ok = [.fsOp (saveDirOp addr),
      .fsError (saveSecretOp addr sk), .saveReturn] ∨
    saveEvents addr pk sk ok = [.fsOp (saveDirOp addr),
      .fsOp (saveSecretOp addr sk), .fsError (savePublicOp addr pk), .saveReturn] ∨
    saveEvents addr pk sk ok = [.fsOp (saveDirOp addr),
      .fsOp (saveSecretOp addr sk), .fsOp (savePublicOp addr pk),
      .fsError (saveHostnameOp addr), .saveReturn] ∨
    saveEvents addr pk sk ok = [.fsOp (saveDirOp addr),
      .fsOp (saveSecretOp addr sk), .fsOp (savePublicOp addr pk),
      .fsOp (saveHostnameOp addr), .saveReturn] := by
  by_cases h1 : ok (saveDirOp addr) = false
  · exact Or.inl (by simp [saveEvents, h1])
  by_cases h2 : ok (saveSecretOp addr sk) = false
  · exact Or.inr (Or.inl (by simp [saveEvents, h1, h2]))
  by_cases h3 : ok (savePublicOp addr pk) = false
  · exact Or.inr (Or.inr (Or.inl (by simp [saveEvents, h1, h2, h3])))
  by_cases h4 : ok (saveHostnameOp addr) = false
  · exact Or.inr (Or.inr (Or.inr (Or.inl (by simp [saveEvents, h1, h2, h3, h4]))))
  · exact Or.inr (Or.inr (Or.inr (Or.inr (by simp [saveEvents, h1, h2, h3, h4]))))

/-- `save` emits nothing on the result channel. -/
theorem saveEvents_no_emit (addr : String) (pk sk : List Nat) (ok : FsOp → Bool) :
    (saveEvents addr pk sk ok).countP isEmit = 0 := by
  rcases saveEvents_cases addr pk sk ok with h | h | h | h | h <;>
    rw [h] <;> simp [List.countP_cons, isEmit]

/-- `save` never touches the `found` counter. -/
theorem saveEvents_no_incFound (addr : String) (pk sk : List Nat) (ok : FsOp → Bool) :
    (saveEvents addr pk sk ok).countP isIncFound = 0 := by
  rcases saveEvents_cases addr pk sk ok with h | h | h | h | h <;>
    rw [h] <;> simp [List.countP_cons, isIncFound]

/-- `save` always returns (the deferred `saveWg.Done` always runs). -/
theorem saveEvents_returns (addr : String) (pk sk : List Nat) (ok : FsOp → Bool) :
    Event.saveReturn ∈ saveEvents addr pk sk ok := by
  rcases saveEvents_cases addr pk sk ok with h | h | h | h | h <;> rw [h] <;> simp

/-- `save` reports an error only for an operation the oracle failed. -/
theorem saveEvents_fsError (addr : String) (pk sk : List Nat) (ok : FsOp → Bool) :
    ∀ op, Event.fsError op ∈ saveEvents addr pk sk ok → ok op = false := by
  intro op hmem
  by_cases h1 : ok (saveDirOp addr) = false
  · simp [saveEvents, h1] at hmem
    rw [hmem]
    exact h1
  by_cases h2 : ok (saveSecretOp addr sk) = false
  · simp [saveEvents, h1, h2] at hmem
    rw [hmem]
    exact h2
  by_cases h3 : ok (savePublicOp addr pk) = false
  · simp [saveEvents, h1, h2, h3] at hmem
    rw [hmem]
    exact h3
  by_cases h4 : ok (saveHostnameOp addr) = false
  · simp [saveEvents, h1, h2, h3, h4] at hmem
    rw [hmem]
    exact h4
  · simp [saveEvents, h1, h2, h3, h4] at hmem

set_option maxRecDepth 4096 in
/-- C8 (amended): for one matching key under any filesystem-error oracle, in
every valid trace the address is emitted first — before the save is even
dispatched, hence before any persistence outcome; the address is emitted
exactly once and the `found` counter is incremented exactly once, whatever
the persistence outcome; the dispatched `save` always runs to completion
(a filesystem failure is reported, never a crash), errors are reported only
for operations that actually failed, and no event of the trace decrements a
counter or retracts an emission. -/
theorem C8_errorHandling (addr : String) (pk sk : List Nat) (ok : FsOp → Bool)
    (t : List Event) (ht : OneMatchTrace addr pk sk ok t) :
    t[0]? = some (.emit addr) ∧
    t[2]? = some (.dispatchSave addr) ∧
    t.countP isEmit = 1 ∧
    t.countP isIncFound = 1 ∧
    Event.saveReturn ∈ t ∧
    (∀ op, Event.fsError op ∈ t → ok op = false) ∧
    (ok (saveDirOp addr) = false → Event.fsError (saveDirOp addr) ∈ t) := by
  obtain ⟨m, hm, rfl⟩ := ht
  have hc1 : m.countP isEmit = 0 := by
    rw [Merge.countP_eq isEmit hm, saveEvents_no_emit]
    rfl
  have hc2 : m.countP isIncFound = 1 := by
    rw [Merge.countP_eq isIncFound hm, saveEvents_no_incFound]
    rfl
  refine ⟨by simp, by simp, ?_, ?_, ?_, ?_, ?_⟩
  · simp only [List.countP_cons, hc1, isEmit]
    rfl
  · simp only [List.countP_cons, hc2, isIncFound]
    rfl
  · exact List.mem_cons_of_mem _ (List.mem_cons_of_mem _ (List.mem_cons_of_mem _
      (Merge.subset_right hm _ (saveEvents_returns addr pk sk ok))))
  · intro op hmem
    rcases List.mem_cons.1 hmem with h | hmem
    · cases h
    rcases List.mem_cons.1 hmem with h | hmem
    · cases h
    rcases List.mem_cons.1 hmem with h | hmem
    · cases h
    rcases Merge.mem_or hm _ hmem with h | h
    · simp at h
    · exact saveEvents_fsError addr pk sk ok op h
  · intro hfail
    have hse : Event.fsError (saveDirOp addr) ∈ saveEvents addr pk sk ok := by
      simp [saveEvents, hfail]
    exact List.mem_cons_of_mem _ (List.mem_cons_of_mem _ (List.mem_cons_of_mem _
      (Merge.subset_right hm _ hse)))

/-- Counterexample to C8 as stated: a valid trace of one matching key in
which the persistence outcome (a reported directory-creation failure,
index 3, completed at index 4) is known before the `found` counter is
incremented (index 5) — the `found++` runs concurrently with the dispatched
`save` and may be interleaved after its failure. -/
theorem C8_counterexample :
    OneMatchTrace "a" [] [] (fun _ => false)
      [.emit "a", .saveWgAdd, .dispatchSave "a", .fsError (.mkdirAll "a" 448),
       .saveReturn, .incFound, .wgDone] ∧
    ([.emit "a", .saveWgAdd, .dispatchSave "a", .fsError (.mkdirAll "a" 448),
       .saveReturn, .incFound, .wgDone] : List Event)[3]? =
      some (.fsError (.mkdirAll "a" 448)) ∧
    ([.emit "a", .saveWgAdd, .dispatchSave "a", .fsError (.mkdirAll "a" 448),
       .saveReturn, .incFound, .wgDone] : List Event)[5]? = some .incFound := by
  refine ⟨⟨[.fsError (.mkdirAll "a" 448), .saveReturn, .incFound, .wgDone],
    ?_, rfl⟩, by simp, by simp⟩
  have hse : saveEvents "a" [] [] (fun _ => false) =
      [.fsError (.mkdirAll "a" 448), .saveReturn] := rfl
  rw [hse]
  exact Merge.right (Merge.right (Merge.left (Merge.left Merge.nil)))

/-- Witness for C8 (amended) on a concrete failing trace. -/
theorem C8_errorHandling_witness :
    ([.emit "a", .saveWgAdd, .dispatchSave "a", .fsError (.mkdirAll "a" 448),
      .saveReturn, .incFound, .wgDone] : List Event).countP isIncFound = 1 := by
  have ht : OneMatchTrace "a" [] [] (fun _ => false)
      [.emit "a", .saveWgAdd, .dispatchSave "a", .fsError (.mkdirAll "a" 448),
       .saveReturn, .incFound, .wgDone] :=
    ⟨[.fsError (.mkdirAll "a" 448), .saveReturn, .incFound, .wgDone],
      Merge.right (Merge.right (Merge.left (Merge.left Merge.nil))), rfl⟩
  exact (C8_errorHandling "a" [] [] (fun _ => false) _ ht).2.2.2.1

/-- Appending different suffixes to the same string gives different strings. -/
theorem append_right_ne (a : String) {s t : String} (h : s.data ≠ t.data) :
    a ++ s ≠ a ++ t := by
  intro he
  apply h
  have h2 : (a ++ s).data = (a ++ t).data := congrArg String.data he
  rw [String.data_append, String.data_append] at h2
  exact List.append_cancel_left h2

/-- The hostname write targets a different path than the secret key write. -/
theorem hostname_ne_secret (addr : String) (sk : List Nat) :
    saveHostnameOp addr ≠ saveSecretOp addr sk := by
  intro h
  rw [saveHostnameOp, saveSecretOp] at h
  injection h with h1 h2 h3
  exact append_right_ne addr (by decide) h1

/-- The hostname write targets a different path than the public key write. -/
theorem hostname_ne_public (addr : String) (pk : List Nat) :
    saveHostnameOp addr ≠ savePublicOp addr pk := by
  intro h
  rw [saveHostnameOp, savePublicOp] at h
  injection h with h1 h2 h3
  exact append_right_ne addr (by decide) h1

/-- The public key write targets a different path than the secret key write. -/
theorem public_ne_secret (addr : String) (pk sk : List Nat) :
    savePublicOp addr pk ≠ saveSecretOp addr sk := by
  intro h
  rw [savePublicOp, saveSecretOp] at h
  injection h with h1 h2 h3
  exact append_right_ne addr (by decide) h1

/-- The hostname write is not the directory creation. -/
theorem hostname_ne_dir (addr : String) : saveHostnameOp addr ≠ saveDirOp addr := by
  simp [saveHostnameOp, saveDirOp]

/-- The public key write is not the directory creation. -/
theorem public_ne_dir (addr : String) (pk : List Nat) :
    savePublicOp addr pk ≠ saveDirOp addr := by
  simp [savePublicOp, saveDirOp]

/-- C10: `save` attempts its writes in the fixed order secret key, public
key, hostname, stopping at the first error: if the hostname file was written
then the run is the full success sequence (both key files written before
it); if the public key file was written then the directory and the secret
key file were written before it. -/
theorem C10_saveOrder (addr : String) (pk sk : List Nat) (ok : FsOp → Bool) :
    (Event.fsOp (saveHostnameOp addr) ∈ saveEvents addr pk sk ok →
      saveEvents addr pk sk ok =
        [.fsOp (saveDirOp addr), .fsOp (saveSecretOp addr sk),
         .fsOp (savePublicOp addr pk), .fsOp (saveHostnameOp addr), .saveReturn]) ∧
    (Event.fsOp (savePublicOp addr pk) ∈ saveEvents addr pk sk ok →
      (saveEvents addr pk sk ok).take 3 =
        [.fsOp (saveDirOp addr), .fsOp (saveSecretOp addr sk),
         .fsOp (savePublicOp addr pk)]) := by
  rcases saveEvents_cases addr pk sk ok with h | h | h | h | h
  · rw [h]
    constructor
    · intro hmem
      simp at hmem
    · intro hmem
      simp at hmem
  · rw [h]
    constructor
    · intro hmem
      simp [hostname_ne_secret addr sk, hostname_ne_dir addr] at hmem
    · intro hmem
      simp [public_ne_secret addr pk sk, public_ne_dir addr pk] at hmem
  · rw [h]
    constructor
    · intro hmem
      simp [hostname_ne_secret addr sk, hostname_ne_dir addr] at hmem
    · intro hmem
      simp [public_ne_secret addr pk sk, public_ne_dir addr pk] at hmem
  · rw [h]
    constructor
    · intro hmem
      simp [hostname_ne_secret addr sk, hostname_ne_public addr pk,
        hostname_ne_dir addr] at hmem
    · intro hmem
      rfl
  · rw [h]
    constructor
    · intro hmem
      rfl
    · intro hmem
      rfl

/-- Witness for C10 with an all-success oracle. -/
theorem C10_saveOrder_witness :
    saveEvents "a" [] [] (fun _ => true) =
      [.fsOp (saveDirOp "a"), .fsOp (saveSecretOp "a" []),
       .fsOp (savePublicOp "a" []), .fsOp (saveHostnameOp "a"), .saveReturn] :=
  (C10_saveOrder "a" [] [] (fun _ => true)).1 (by simp [saveEvents])

/-! ## Claim C9: the target-count clamp -/

/-- Running the argument loop over valid patterns followed by a numeric last
argument collects the patterns and returns the parsed number. -/
theorem parseLoop_all_ok (compileOk : String → Bool) (last : String) (n : Int)
    (hn : goAtoi last = some n) : ∀ (mid : List String) (cnt : Int)
    (acc : List String), (∀ p ∈ mid, compileOk p = true) →
    parseLoop compileOk (mid ++ [last]) cnt acc = Except.ok (acc ++ mid, n) := by
  intro mid
  induction mid with
  | nil =>
    intro cnt acc hok
    simp [parseLoop, hn]
  | cons a mid2 ih =>
    intro cnt acc hok
    have ha : compileOk a = true := hok a (by simp)
    have hie : (mid2 ++ [last]).isEmpty = false := by cases mid2 <;> rfl
    simp only [List.cons_append, parseLoop, List.append_eq, hie, Bool.false_eq_true,
      if_false, ha, if_true]
    rw [ih cnt (acc ++ [a]) (fun p hp => hok p (by simp [hp]))]
    simp

/-- C9: when the final argument parses as an integer below 1, startup does
not fail: it returns the compiled patterns and proceeds with a target of
exactly 1. -/
theorem C9_targetClamp (prog last : String) (mid : List String)
    (compileOk : String → Bool) (n : Int) (hmid : mid ≠ [])
    (hok : ∀ p ∈ mid, compileOk p = true) (hn : goAtoi last = some n)
    (hneg : n < 1) :
    mainSetup (prog :: mid ++ [last]) compileOk = Except.ok (mid, 1) := by
  have hlen : ¬ ((prog :: mid ++ [last]).length < 2) := by simp
  simp only [mainSetup, hlen, if_false]
  rw [show (prog :: mid ++ [last]).drop 1 = mid ++ [last] from rfl]
  rw [parseLoop_all_ok compileOk last n hn mid 1 [] hok]
  have hml : ¬ (mid.length = 0) := by
    simpa [List.length_eq_zero] using hmid
  simp [hml, hneg]

/-- Witness for C9 at a concrete command line with target `-5`. -/
theorem C9_targetClamp_witness :
    mainSetup ["prog", "abc", "-5"] (fun _ => true) = Except.ok (["abc"], 1) :=
  C9_targetClamp "prog" "-5" ["abc"] (fun _ => true) (-5) (by simp)
    (fun p hp => rfl) (by decide) (by norm_num)

end Oniongen

/-! ## Test vectors checked by kernel evaluation -/

set_option maxRecDepth 100000

/-- SHA3-256 of the empty message (FIPS 202 test vector). -/
theorem sha3_256_vector_empty : Oniongen.sha3_256 [] = [167, 255, 198, 248, 191, 30, 215, 102, 81, 193, 71, 86, 160, 97, 214, 98, 245, 128, 255, 77, 228, 59, 73, 250, 130, 216, 10, 75, 128, 248, 67, 74] := by rfl

/-- SHA3-256 of 48 zero bytes (the checksum-input length used by the encoder). -/
theorem sha3_256_vector_zeros48 : Oniongen.sha3_256 (List.replicate 48 0) = [133, 198, 93, 19, 200, 113, 155, 159, 136, 63, 230, 29, 21, 173, 160, 40, 169, 25, 61, 85, 203, 79, 43, 182, 5, 236, 141, 124, 46, 193, 223, 255] := by rfl

/-- SHA3-256 of a two-block message (bytes 0..199). -/
theorem sha3_256_vector_range200 : (Oniongen.sha3_256 ((List.range 200))) = [95, 114, 143, 99, 191, 94, 228, 140, 119, 244, 83, 192, 73, 3, 152, 250, 100, 91, 141, 76, 78, 86, 190, 154, 65, 207, 236, 52, 77, 108, 168, 153] := by rfl

/-- SHA-512 of the ASCII bytes of "abc" (FIPS 180-4 test vector). -/
theorem sha512_vector_abc : Oniongen.sha512 [97, 98, 99] = [221, 175, 53, 161, 147, 97, 122, 186, 204, 65, 115, 73, 174, 32, 65, 49, 18, 230, 250, 78, 137, 169, 126, 162, 10, 158, 238, 230, 75, 85, 211, 154, 33, 146, 153, 42, 39, 79, 193, 168, 54, 186, 60, 35, 163, 254, 235, 189, 69, 77, 68, 35, 100, 60, 232, 14, 42, 154, 201, 79, 165, 76, 164, 159] := by rfl

/-- SHA-512 of 32 zero bytes (the seed length used by the expander). -/
theorem sha512_vector_zeros32 : Oniongen.sha512 (List.replicate 32 0) = [80, 70, 173, 193, 219, 168, 56, 134, 123, 43, 187, 253, 208, 195, 66, 62, 88, 181, 121, 112, 181, 38, 122, 144, 245, 121, 96, 146, 74, 135, 241, 150, 10, 106, 133, 234, 166, 66, 218, 200, 53, 66, 75, 93, 124, 141, 99, 124, 0, 64, 140, 122, 115, 218, 103, 43, 127, 73, 133, 33, 66, 11, 109, 211] := by rfl

/-- The onion address of the all-zero public key. -/
theorem encodePublicKey_vector_zeroKey : Oniongen.encodePublicKey (List.replicate 32 0) = "aaaaaaaaaaaaaaaaaaaaaaaaaaaaaaaaaaaaaaaaaaaaaaaaaaam2dqd" := by rfl

/-- The expanded secret key of the byte sequence 0..63. -/
theorem expandSecretKey_vector_range64 : Oniongen.expandSecretKey (List.range 64) = [56, 148, 238, 164, 156, 88, 10, 239, 129, 105, 53, 118, 43, 224, 73, 85, 157, 109, 20, 64, 222, 222, 18, 230, 161, 37, 241, 132, 31, 255, 142, 111, 169, 215, 24, 98, 163, 229, 116, 107, 87, 27, 227, 209, 135, 176, 4, 16, 70, 245, 46, 189, 133, 12, 124, 189, 95, 222, 142, 227, 132, 115, 182, 73] := by rfl
